import Mathlib

/-!
Verification development for the Tonk card-game engine.

The definitions below are a shallow embedding of the game-logic layer of the
repository: `Card.js`, `Deck.js`, `Spread.js`, `Player.js`,
`ComputerPlayer.js`, `rules.js` and `Game.js`.  JavaScript classes become
structures, methods become functions on those structures, mutation becomes
explicit state passing, and a thrown `Error` becomes `Except.error`.  The
random shuffle of `new Deck()` is modelled by passing the shuffled card list
in explicitly (an oracle), and the unbounded recursive redeal of
`dealAndCheckInitialTonk` is modelled with explicit fuel, returning `none`
when the fuel or the oracle runs out.  Event emission (`emit`), the
`turnActions` log, player ids and display names carry no game-logic state
and are omitted.  Spread objects are shared by reference between
`Game.spreadsOnTable` and `Player.spreads` in the source; here the table
list owns the spreads and a player records the table indices of the spreads
laid, which models the aliasing exactly.
-/

namespace Tonk

/-- The four suits, `SUITS` in `Card.js`. -/
inductive Suit where
  | hearts | diamonds | clubs | spades
deriving DecidableEq, Repr

/-- The thirteen ranks, `RANKS` in `Card.js` (order A,2,...,10,J,Q,K). -/
inductive Rank where
  | A | N2 | N3 | N4 | N5 | N6 | N7 | N8 | N9 | N10 | J | Q | K
deriving DecidableEq, Repr

/-- `SUITS` array in its source order. -/
def allSuits : List Suit := [.hearts, .diamonds, .clubs, .spades]

/-- `RANKS` array in its source order. -/
def allRanks : List Rank := [.A, .N2, .N3, .N4, .N5, .N6, .N7, .N8, .N9, .N10, .J, .Q, .K]

/-- A playing card: `Card.js` stores `suit` and `rank`; `value` and `id` are
derived from them, so two cards are `equals` exactly when they are equal as
structures. -/
structure Card where
  suit : Suit
  rank : Rank
deriving DecidableEq, Repr

/-- `Card.calculateValue`: A is 1, J/Q/K are 10, numeric ranks their face
value (the source parses the rank string; this table is that function). -/
def Card.value (c : Card) : Nat :=
  match c.rank with
  | .A => 1
  | .N2 => 2
  | .N3 => 3
  | .N4 => 4
  | .N5 => 5
  | .N6 => 6
  | .N7 => 7
  | .N8 => 8
  | .N9 => 9
  | .N10 => 10
  | .J => 10
  | .Q => 10
  | .K => 10

/-- `Card.getRankIndex`: the position of the rank in `RANKS` (A is 0, K is 12). -/
def Card.rankIndex (c : Card) : Nat :=
  match c.rank with
  | .A => 0
  | .N2 => 1
  | .N3 => 2
  | .N4 => 3
  | .N5 => 4
  | .N6 => 5
  | .N7 => 6
  | .N8 => 7
  | .N9 => 8
  | .N10 => 9
  | .J => 10
  | .Q => 11
  | .K => 12

/-- Insert a card into a list sorted by ascending rank index (helper for
`sortRank`). -/
def insertRank (c : Card) : List Card → List Card
  | [] => [c]
  | d :: rest =>
    if c.rankIndex ≤ d.rankIndex then c :: d :: rest else d :: insertRank c rest

/-- The sorts `cards.sort((a, b) => a.getRankIndex() - b.getRankIndex())`
appearing in `Spread.js`: a stable sort by ascending rank index, modelled by
insertion sort. -/
def sortRank : List Card → List Card
  | [] => []
  | c :: rest => insertRank c (sortRank rest)

/-- The draw pile and the discard pile, class `Deck`.  In the source the top
of each pile is the END of the array (`push`/`pop`); the lists here keep
that orientation. -/
structure Deck where
  cards : List Card
  discardPile : List Card
deriving DecidableEq, Repr

/-- `Deck.draw`: removes and returns the top (last) card of the draw pile,
`none` when the pile is empty (no reshuffle). -/
def Deck.draw (d : Deck) : Option (Card × Deck) :=
  match d.cards.getLast? with
  | none => none
  | some c => some (c, { d with cards := d.cards.dropLast })

/-- `Deck.discard`: push a card on top of the discard pile. -/
def Deck.discard (d : Deck) (c : Card) : Deck :=
  { d with discardPile := d.discardPile ++ [c] }

/-- `Deck.getTopDiscard`: peek at the top of the discard pile. -/
def Deck.getTopDiscard (d : Deck) : Option Card :=
  d.discardPile.getLast?

/-- `Deck.drawFromDiscard`: pop the top of the discard pile. -/
def Deck.drawFromDiscard (d : Deck) : Option (Card × Deck) :=
  match d.discardPile.getLast? with
  | none => none
  | some c => some (c, { d with discardPile := d.discardPile.dropLast })

/-- `Deck.isEmpty`. -/
def Deck.isEmpty (d : Deck) : Bool :=
  d.cards.isEmpty

/-- The `generateDeck` order: for each suit of `SUITS`, for each rank of
`RANKS`, one card. -/
def fullDeckList : List Card :=
  allSuits.flatMap fun s => allRanks.map fun r => ⟨s, r⟩

/-- Spread type tag, the `type` field of class `Spread`. -/
inductive SpreadType where
  | book | run
deriving DecidableEq, Repr

/-- A laid spread, class `Spread` (the `owner` back pointer and the display
id carry no rules content and are dropped; `Player.spreads` records table
indices instead). -/
structure Spread where
  cards : List Card
  stype : SpreadType
deriving DecidableEq, Repr

/-- `MIN_SPREAD_SIZE` from `rules.js`. -/
def MIN_SPREAD_SIZE : Nat := 3

/-- `Spread.isValidBook`: at least 3 and at most 4 cards, all of the rank of
the first card. -/
def Spread.isValidBook (cards : List Card) : Bool :=
  if cards.length < MIN_SPREAD_SIZE then false
  else if 4 < cards.length then false
  else match cards with
    | [] => false
    | c0 :: _ => cards.all fun c => c.rank == c0.rank

/-- The consecutive-rank scan of `Spread.isValidRun`: each card has rank
index exactly one more than its predecessor. -/
def consecutive : List Card → Bool
  | [] => true
  | [_] => true
  | a :: b :: rest => (b.rankIndex == a.rankIndex + 1) && consecutive (b :: rest)

/-- `Spread.isValidRun`: at least 3 cards, all of the suit of the first
card, and consecutive rank indices once sorted ascending. -/
def Spread.isValidRun (cards : List Card) : Bool :=
  if cards.length < MIN_SPREAD_SIZE then false
  else match cards with
    | [] => false
    | c0 :: _ =>
      if !(cards.all fun c => c.suit == c0.suit) then false
      else consecutive (sortRank cards)

/-- `Spread.validate`: try the book rule, then the run rule;
`{valid:false, type:null}` becomes `none`. -/
def Spread.validate (cards : List Card) : Option SpreadType :=
  if Spread.isValidBook cards then some .book
  else if Spread.isValidRun cards then some .run
  else none

/-- `Spread.canAddToBook`: fewer than 4 cards and the rank of the first
card.  (The source reads `this.cards[0]`; an empty spread cannot arise from
the game, the `[]` case is the crash of that read, modelled as `false`.) -/
def Spread.canAddToBook (s : Spread) (c : Card) : Bool :=
  if 4 ≤ s.cards.length then false
  else match s.cards with
    | [] => false
    | c0 :: _ => c.rank == c0.rank

/-- `Spread.canAddToRun`: same suit as the first card, and rank index one
below the lowest or one above the highest of the sorted cards.  The source
compares `cardIndex === lowestIndex - 1` over JS numbers; over `Nat` this is
written `cardIndex + 1 == lowestIndex`, which is literally the same
predicate since rank indices are nonnegative. -/
def Spread.canAddToRun (s : Spread) (c : Card) : Bool :=
  match s.cards with
  | [] => false
  | c0 :: _ =>
    if c.suit != c0.suit then false
    else
      let sorted := sortRank s.cards
      match sorted.head?, sorted.getLast? with
      | some lo, some hi =>
        (c.rankIndex + 1 == lo.rankIndex) || (c.rankIndex == hi.rankIndex + 1)
      | _, _ => false

/-- `Spread.canAddCard`: dispatch on the spread type. -/
def Spread.canAddCard (s : Spread) (c : Card) : Bool :=
  match s.stype with
  | .book => s.canAddToBook c
  | .run => s.canAddToRun c

/-- `Spread.addCard`: push the card, re-sorting a run; throwing when the
card is not addable becomes `none`. -/
def Spread.addCard (s : Spread) (c : Card) : Option Spread :=
  if !(s.canAddCard c) then none
  else match s.stype with
    | .run => some { s with cards := sortRank (s.cards ++ [c]) }
    | .book => some { s with cards := s.cards ++ [c] }

/-- The run-accumulator scan inside `findConsecutiveRuns`: walk the sorted
cards left to right; extend the current run while the rank index increases
by exactly one, otherwise flush it (kept only when its length is at least
3) and restart from the current card. -/
def runsAux : List Card → List Card → List (List Card)
  | acc, [] => if MIN_SPREAD_SIZE ≤ acc.length then [acc] else []
  | acc, c :: rest =>
    match acc.getLast? with
    | some p =>
      if c.rankIndex == p.rankIndex + 1 then runsAux (acc ++ [c]) rest
      else (if MIN_SPREAD_SIZE ≤ acc.length then [acc] else []) ++ runsAux [c] rest
    | none => runsAux [c] rest

/-- `findConsecutiveRuns` from `Spread.js`: all maximal consecutive runs of
length at least 3 in a same-suit group. -/
def findConsecutiveRuns (cards : List Card) : List (List Card) :=
  if cards.length < MIN_SPREAD_SIZE then []
  else
    match sortRank cards with
    | [] => []
    | c :: rest => runsAux [c] rest

/-- A candidate spread returned by `findPossibleSpreads` (a plain
`{type, cards}` record in the source). -/
structure SpreadCandidate where
  stype : SpreadType
  cards : List Card
deriving DecidableEq, Repr

/-- `findPossibleSpreads` from `Spread.js`: the rank groups of size at least
3 (cut to 4 cards) as book candidates, then for every suit group its
maximal consecutive runs.  The source iterates the groups in
first-occurrence key order; here the ranks and suits are enumerated in
their fixed `RANKS`/`SUITS` order, which yields the same candidates (only
the relative order of candidates of different keys can differ, and no
caller depends on it). -/
def findPossibleSpreads (cards : List Card) : List SpreadCandidate :=
  let books := allRanks.filterMap fun r =>
    let g := cards.filter fun c => c.rank == r
    if MIN_SPREAD_SIZE ≤ g.length then some ⟨.book, g.take 4⟩ else none
  let runs := allSuits.flatMap fun s =>
    (findConsecutiveRuns (cards.filter fun c => c.suit == s)).map fun rc =>
      SpreadCandidate.mk .run rc
  books ++ runs

/-- A player, class `Player` (and `ComputerPlayer`, which only adds the
decision procedures).  The random display id, the name and the `difficulty`
tag carry no rules content and are dropped; `spreads` holds the indices
into `Game.spreadsOnTable` of the spreads this player laid, which models
the shared references of the source. -/
structure Player where
  hand : List Card
  isHuman : Bool
  spreads : List Nat
  chips : Nat
  currentBet : Nat
  isEliminated : Bool
deriving DecidableEq, Repr

/-- `Player.calculatePoints`: the sum of the card values in hand. -/
def Player.calculatePoints (p : Player) : Nat :=
  (p.hand.map Card.value).sum

/-- `Player.addCard`: push onto the hand. -/
def Player.addCard (p : Player) (c : Card) : Player :=
  { p with hand := p.hand ++ [c] }

/-- The `findIndex`-then-`splice` of `Player.removeCard`, on a bare hand:
remove the first card equal to `c`, returning it, or `none` when absent. -/
def removeCardAux (c : Card) : List Card → Option Card × List Card
  | [] => (none, [])
  | x :: rest =>
    if x == c then (some x, rest)
    else
      let r := removeCardAux c rest
      (r.1, x :: r.2)

/-- `Player.removeCard`: remove the first hand card equal to `c`; when the
card is absent the hand is unchanged and `none` is returned (the silent
not-found signal of the source). -/
def Player.removeCard (p : Player) (c : Card) : Option Card × Player :=
  let r := removeCardAux c p.hand
  (r.1, { p with hand := r.2 })

/-- `Player.removeCards`: remove each card in turn, silently skipping the
ones that are absent. -/
def Player.removeCards (p : Player) (cards : List Card) : Player :=
  cards.foldl (fun q c => (q.removeCard c).2) p

/-- `Player.hasEmptyHand`. -/
def Player.hasEmptyHand (p : Player) : Bool :=
  p.hand.isEmpty

/-- `Player.hasCard`: membership by card equality. -/
def Player.hasCard (p : Player) (c : Card) : Bool :=
  p.hand.any fun x => x == c

/-- `Player.reset`: clear the hand and the laid spreads (chips persist). -/
def Player.reset (p : Player) : Player :=
  { p with hand := [], spreads := [] }

/-- `Player.bet`: clamp the bet to the available chips (all-in semantics),
deduct it, add it to `currentBet`, and return the actual amount. -/
def Player.bet (p : Player) (amount : Nat) : Nat × Player :=
  let actual := min amount p.chips
  (actual, { p with chips := p.chips - actual, currentBet := p.currentBet + actual })

/-- `Player.resetBet`. -/
def Player.resetBet (p : Player) : Player :=
  { p with currentBet := 0 }

/-- `ComputerPlayer.countSpreadPotential`: the number of candidate spreads
in the hand. -/
def countSpreadPotential (hand : List Card) : Nat :=
  (findPossibleSpreads hand).length

/-- `ComputerPlayer.shouldKnock`, as a function of the hand: knock with at
most 3 points; with at most 5 points knock only when there is no spread
potential or at most 2 cards remain; never otherwise. -/
def shouldKnock (hand : List Card) : Bool :=
  let points := (hand.map Card.value).sum
  if points ≤ 3 then true
  else if points ≤ 5 then
    if countSpreadPotential hand == 0 || hand.length ≤ 2 then true else false
  else false

/-- Game phases, `PHASES` in `rules.js`. -/
inductive Phase where
  | PRE_GAME | INITIAL_TONK_CHECK | START_OF_TURN | DRAW | ACTION | DISCARD | GAME_OVER
deriving DecidableEq, Repr

/-- Win conditions, `WIN_CONDITIONS` in `rules.js`. -/
inductive WinCondition where
  | TONK | INITIAL_TONK | INITIAL_TONK_DRAW | KNOCK | CAUGHT | STOCK_EMPTY
deriving DecidableEq, Repr

/-- `CARDS_PER_PLAYER` from `rules.js`. -/
def CARDS_PER_PLAYER : Nat := 5

/-- `getCardsPerPlayer` from `rules.js`: always 5, whatever the player count. -/
def getCardsPerPlayer (_playerCount : Nat) : Nat := CARDS_PER_PLAYER

/-- `hasInitialTonk` from `rules.js`: 49 or 50 points. -/
def hasInitialTonk (points : Nat) : Bool :=
  49 ≤ points && points ≤ 50

/-- `BETTING.ANTE_AMOUNT` from `rules.js`. -/
def ANTE_AMOUNT : Nat := 10

/-- `BETTING.STARTING_CHIPS` from `rules.js`. -/
def STARTING_CHIPS : Nat := 1000

/-- `MATCH_POINT_LIMIT` from `rules.js`. -/
def MATCH_POINT_LIMIT : Nat := 100

/-- The state of class `Game`.  `winner` holds the seat index of the
winning player (`null` becomes `none`); `matchScores`, keyed by player id
in the source, is the parallel list of cumulative scores (seat indices and
ids are in bijection).  `turnActions`, the event listeners and the cached
`matchWinner` carry no rules state and are omitted. -/
structure GameState where
  deck : Deck
  players : List Player
  currentPlayerIndex : Nat
  phase : Phase
  spreadsOnTable : List Spread
  winner : Option Nat
  winCondition : Option WinCondition
  matchScores : List Nat
  pot : Nat
  highestBet : Nat
  roundNumber : Nat
  hasDrawnThisTurn : Bool
deriving DecidableEq, Repr

/-- Hand points of the player at seat `i` (0 when the seat does not exist);
notation for stating the claims. -/
def ptsAt (g : GameState) (i : Nat) : Nat :=
  ((g.players.map Player.calculatePoints).get? i).getD 0

/-- Total chips held by a list of players. -/
def sumChips (ps : List Player) : Nat :=
  (ps.map Player.chips).sum

namespace Game

/-- The ante-collecting loop of `Game.collectAntes` over the player list:
each non-eliminated player has its bet reset and antes `ANTE_AMOUNT`
(clamped to its chips); eliminated players are skipped.  Returns the
updated players and the collected pot. -/
def anteFold : List Player → List Player × Nat
  | [] => ([], 0)
  | p :: rest =>
    let pr := anteFold rest
    if p.isEliminated then (p :: pr.1, pr.2)
    else
      let r := (p.resetBet).bet ANTE_AMOUNT
      (r.2 :: pr.1, r.1 + pr.2)

/-- `Game.collectAntes`: zero the pot, set the highest bet to the ante, and
collect a (clamped) ante from every non-eliminated player. -/
def collectAntes (g : GameState) : GameState :=
  let r := anteFold g.players
  { g with players := r.1, pot := r.2, highestBet := ANTE_AMOUNT }

/-- One inner pass of `Game.deal`: each player in seat order draws one card
(silently skipping players once the deck runs dry, as the source's
`if (card)` does). -/
def dealPassAux (deck : Deck) : List Player → Deck × List Player
  | [] => (deck, [])
  | p :: rest =>
    match deck.draw with
    | none =>
      let r := dealPassAux deck rest
      (r.1, p :: r.2)
    | some cd =>
      let r := dealPassAux cd.2 rest
      (r.1, p.addCard cd.1 :: r.2)

/-- One round-robin pass of the deal at the game level. -/
def dealPass (g : GameState) : GameState :=
  let r := dealPassAux g.deck g.players
  { g with deck := r.1, players := r.2 }

/-- The outer loop of `Game.deal`: `n` round-robin passes. -/
def dealPasses : Nat → GameState → GameState
  | 0, g => g
  | n + 1, g => dealPasses n (dealPass g)

/-- `Game.deal`: deal `getCardsPerPlayer` cards round-robin, then flip one
card to seed the discard pile. -/
def deal (g : GameState) : GameState :=
  let g5 := dealPasses (getCardsPerPlayer g.players.length) g
  match g5.deck.draw with
  | some cd => { g5 with deck := cd.2.discard cd.1 }
  | none => g5

/-- `Game.checkInitialTonk`: the seat indices of the players whose hands
score 49 or 50 points. -/
def checkInitialTonk (g : GameState) : List Nat :=
  ((g.players.enum.filter fun ip => hasInitialTonk ip.2.calculatePoints).map Prod.fst)

/-- One ante-and-deal attempt of `Game.dealAndCheckInitialTonk`: collect
antes, deal, and move to the initial-tonk check. -/
def dealAttempt (g : GameState) : GameState :=
  { deal (collectAntes g) with phase := Phase.INITIAL_TONK_CHECK }

/-- `Game.dealAndCheckInitialTonk`.  The recursive redeal consumes one
shuffled deck from `oracle` (the model of `new Deck()`) per retry; `fuel`
bounds the recursion and `none` reports its exhaustion (the source recurses
without bound). -/
def dealAndCheckInitialTonk : Nat → List (List Card) → GameState → Option GameState
  | 0, _, _ => none
  | fuel + 1, oracle, g =>
    let a := dealAttempt g
    let t := checkInitialTonk a
    if 1 < t.length then
      match oracle with
      | [] => none
      | d :: rest =>
        dealAndCheckInitialTonk fuel rest
          { a with players := a.players.map Player.reset, deck := ⟨d, []⟩ }
    else
      match t with
      | [i] =>
        some { a with winner := some i, winCondition := some .INITIAL_TONK,
                      phase := Phase.GAME_OVER }
      | _ => some { a with phase := Phase.START_OF_TURN }

/-- A fresh player as built by `Game.initialize`: empty hand, starting
chips, no bet, not eliminated. -/
def freshPlayer (isHuman : Bool) : Player :=
  { hand := [], isHuman := isHuman, spreads := [], chips := STARTING_CHIPS,
    currentBet := 0, isEliminated := false }

/-- `Game.initialize`: one human seat then `playerCount - 1` computer
seats, zeroed match scores and betting state, the first shuffled deck, and
the first ante-deal-check cycle.  `firstDeck` and `oracle` supply the
shuffles, `fuel` bounds the redeal recursion. -/
def setupGame (playerCount : Nat) (firstDeck : List Card)
    (oracle : List (List Card)) (fuel : Nat) : Option GameState :=
  let players := freshPlayer true :: List.replicate (playerCount - 1) (freshPlayer false)
  let g : GameState :=
    { deck := ⟨firstDeck, []⟩, players := players, currentPlayerIndex := 0,
      phase := Phase.PRE_GAME, spreadsOnTable := [], winner := none,
      winCondition := none, matchScores := List.replicate players.length 0,
      pot := 0, highestBet := 0, roundNumber := 1, hasDrawnThisTurn := false }
  dealAndCheckInitialTonk fuel oracle g

/-- The first-strict-minimum scan shared by `Game.knock` (which skips the
knocker) and `Game.endGameStockEmpty` (which skips nobody): walk the point
list left to right keeping the first index whose points are strictly below
the best so far; `none` stands for the `Infinity` start. -/
def minFirstAux (skip : Nat → Bool) : Nat → Option (Nat × Nat) → List Nat → Option (Nat × Nat)
  | _, acc, [] => acc
  | i, acc, p :: rest =>
    minFirstAux skip (i + 1)
      (if skip i then acc
       else
         match acc with
         | none => some (i, p)
         | some jq => if p < jq.2 then some (i, p) else some jq) rest

/-- `Game.endGameStockEmpty`: the first player with the lowest points wins,
the round ends as `STOCK_EMPTY`.  (The source crashes on an empty player
list reading `players[0]`; that unreachable case keeps `winner` empty.) -/
def endGameStockEmpty (g : GameState) : GameState :=
  match minFirstAux (fun _ => false) 0 none (g.players.map Player.calculatePoints) with
  | some jq =>
    { g with winner := some jq.1, winCondition := some .STOCK_EMPTY, phase := Phase.GAME_OVER }
  | none =>
    { g with winner := none, winCondition := some .STOCK_EMPTY, phase := Phase.GAME_OVER }

/-- `Game.drawFromDeck`: only in the `DRAW` phase; an empty draw pile ends
the round via `endGameStockEmpty` and returns `null` (not an error); a
successful draw goes to the current player's hand and the phase moves to
`ACTION`. -/
def drawFromDeck (g : GameState) : Except String (GameState × Option Card) :=
  if g.phase ≠ Phase.DRAW then .error "Cannot draw - not in draw phase"
  else
    match g.deck.draw with
    | some cd =>
      match g.players.get? g.currentPlayerIndex with
      | none => .error "no current player"
      | some p =>
        let g1 := { g with deck := cd.2,
                           players := g.players.set g.currentPlayerIndex (p.addCard cd.1),
                           hasDrawnThisTurn := true, phase := Phase.ACTION }
        .ok (g1, some cd.1)
    | none => .ok (endGameStockEmpty g, none)

/-- `Game.drawFromDiscard`: only in the `DRAW` phase; an empty discard pile
returns `null` and changes nothing. -/
def drawFromDiscard (g : GameState) : Except String (GameState × Option Card) :=
  if g.phase ≠ Phase.DRAW then .error "Cannot draw - not in draw phase"
  else
    match g.deck.drawFromDiscard with
    | some cd =>
      match g.players.get? g.currentPlayerIndex with
      | none => .error "no current player"
      | some p =>
        let g1 := { g with deck := cd.2,
                           players := g.players.set g.currentPlayerIndex (p.addCard cd.1),
                           hasDrawnThisTurn := true, phase := Phase.ACTION }
        .ok (g1, some cd.1)
    | none => .ok (g, none)

/-- `Game.proceedToDraw`: `START_OF_TURN` to `DRAW`. -/
def proceedToDraw (g : GameState) : Except String GameState :=
  if g.phase ≠ Phase.START_OF_TURN then .error "Can only proceed to draw from start of turn"
  else .ok { g with phase := Phase.DRAW }

/-- `Game.laySpread`: allowed in `START_OF_TURN` and `ACTION`; the card set
must validate as a spread; the cards are then removed from the current
player's hand (silently skipping absent ones, as `Player.removeCards`
does), the new spread joins the table, and an emptied hand wins the round
as `TONK`. -/
def laySpread (g : GameState) (cards : List Card) : Except String GameState :=
  if g.phase ≠ Phase.ACTION ∧ g.phase ≠ Phase.START_OF_TURN then
    .error "Cannot lay spread - not in valid phase"
  else
    match Spread.validate cards with
    | none => .error "Invalid spread"
    | some t =>
      match g.players.get? g.currentPlayerIndex with
      | none => .error "no current player"
      | some player =>
        let p1 := player.removeCards cards
        let idx := g.spreadsOnTable.length
        let p2 := { p1 with spreads := p1.spreads ++ [idx] }
        let g1 := { g with spreadsOnTable := g.spreadsOnTable ++ [Spread.mk cards t],
                           players := g.players.set g.currentPlayerIndex p2 }
        if p2.hasEmptyHand then
          .ok { g1 with winner := some g.currentPlayerIndex,
                        winCondition := some .TONK, phase := Phase.GAME_OVER }
        else .ok g1

/-- `Game.hitSpread`: allowed in `START_OF_TURN` and `ACTION`; the card
must be addable to the spread (given here by its table index, the model of
the spread reference); the card is then removed from the current player's
hand (silently a no-op when absent) and appended to the spread, and an
emptied hand wins the round as `TONK`. -/
def hitSpread (g : GameState) (card : Card) (sIdx : Nat) : Except String GameState :=
  if g.phase ≠ Phase.ACTION ∧ g.phase ≠ Phase.START_OF_TURN then
    .error "Cannot hit spread - not in valid phase"
  else
    match g.spreadsOnTable.get? sIdx with
    | none => .error "no such spread"
    | some s =>
      if !(s.canAddCard card) then .error "Cannot add this card to the spread"
      else
        match g.players.get? g.currentPlayerIndex with
        | none => .error "no current player"
        | some player =>
          let p1 := (player.removeCard card).2
          match s.addCard card with
          | none => .error "Cannot add this card to the spread"
          | some s1 =>
            let g1 := { g with players := g.players.set g.currentPlayerIndex p1,
                               spreadsOnTable := g.spreadsOnTable.set sIdx s1 }
            if p1.hasEmptyHand then
              .ok { g1 with winner := some g.currentPlayerIndex,
                            winCondition := some .TONK, phase := Phase.GAME_OVER }
            else .ok g1

/-- `Game.endTurn`: advance the seat pointer and return to
`START_OF_TURN`. -/
def endTurn (g : GameState) : GameState :=
  { g with currentPlayerIndex := (g.currentPlayerIndex + 1) % g.players.length,
           hasDrawnThisTurn := false, phase := Phase.START_OF_TURN }

/-- `Game.discard`: only in the `ACTION` phase; the card must be in the
current player's hand (this operation, unlike `laySpread` and `hitSpread`,
checks the `removeCard` result); it goes on top of the discard pile; an
emptied hand wins as `TONK`, otherwise the turn passes. -/
def discard (g : GameState) (card : Card) : Except String GameState :=
  if g.phase ≠ Phase.ACTION then .error "Cannot discard - not in action phase"
  else
    match g.players.get? g.currentPlayerIndex with
    | none => .error "no current player"
    | some player =>
      let r := player.removeCard card
      match r.1 with
      | none => .error "Card not in player hand"
      | some removed =>
        let g1 := { g with deck := g.deck.discard removed,
                           players := g.players.set g.currentPlayerIndex r.2 }
        if r.2.hasEmptyHand then
          .ok { g1 with winner := some g.currentPlayerIndex,
                        winCondition := some .TONK, phase := Phase.GAME_OVER }
        else .ok (endTurn g1)

/-- `Game.knock`: only in `START_OF_TURN`.  Scan every other player for the
lowest points (first seat wins ties); the knocker wins as `KNOCK` only with
strictly fewer points, otherwise that player wins as `CAUGHT`.  The source
skips the knocker by object reference (`player !== knocker`); since the
seats hold distinct objects this is the seat-index comparison used here. -/
def knock (g : GameState) : Except String GameState :=
  if g.phase ≠ Phase.START_OF_TURN then .error "Can only knock at the start of your turn"
  else
    match g.players.get? g.currentPlayerIndex with
    | none => .error "no current player"
    | some knocker =>
      match minFirstAux (fun i => i == g.currentPlayerIndex) 0 none
          (g.players.map Player.calculatePoints) with
      | none =>
        .ok { g with winner := some g.currentPlayerIndex,
                     winCondition := some .KNOCK, phase := Phase.GAME_OVER }
      | some jq =>
        if knocker.calculatePoints < jq.2 then
          .ok { g with winner := some g.currentPlayerIndex,
                       winCondition := some .KNOCK, phase := Phase.GAME_OVER }
        else
          .ok { g with winner := some jq.1,
                       winCondition := some .CAUGHT, phase := Phase.GAME_OVER }

/-- `Game.applyRoundScoring`: every player other than the winner has its
current hand points added to its cumulative match score; the winner's entry
is untouched. -/
def applyRoundScoring (g : GameState) : GameState :=
  { g with matchScores := g.players.enum.map fun ip =>
      g.matchScores.getD ip.1 0 + (if some ip.1 = g.winner then 0 else ip.2.calculatePoints) }

end Game

/-! Helper lemmas about the first-minimum scan. -/

/-- Reading off the head of a `drop`: if `pts.drop i0 = p :: rest` then the
element at `i0` is `p` and dropping one more gives `rest`. -/
theorem drop_eq_cons_split (pts : List Nat) :
    ∀ (i0 p : Nat) (rest : List Nat), pts.drop i0 = p :: rest →
      pts.get? i0 = some p ∧ pts.drop (i0 + 1) = rest := by
  induction pts with
  | nil => intro i0 p rest h; simp at h
  | cons x xs ih =>
    intro i0 p rest h
    cases i0 with
    | zero =>
      simp only [List.drop_zero] at h
      cases h
      exact ⟨rfl, by simp⟩
    | succ i =>
      simp only [List.drop_succ_cons] at h
      have := ih i p rest h
      exact ⟨this.1, this.2⟩

/-- The loop invariant of `Game.minFirstAux`: starting from position `i0`,
the accumulator is `none` exactly when every earlier index was skipped, and
otherwise records a non-skipped index `j` before `i0` carrying the value at
`j`, which is minimal among the non-skipped prefix and strictly minimal
among the non-skipped indices before `j`. -/
def MinAcc (skip : Nat → Bool) (pts : List Nat) (i0 : Nat) : Option (Nat × Nat) → Prop
  | none => ∀ i, i < i0 → skip i = true
  | some jq => jq.1 < i0 ∧ skip jq.1 = false ∧ jq.2 = (pts.get? jq.1).getD 0 ∧
      (∀ i, i < i0 → skip i = false → jq.2 ≤ (pts.get? i).getD 0) ∧
      (∀ i, i < jq.1 → skip i = false → jq.2 < (pts.get? i).getD 0)

/-- `Game.minFirstAux` preserves `MinAcc` along the scan. -/
theorem minFirstAux_inv (skip : Nat → Bool) (pts : List Nat) :
    ∀ (l : List Nat) (i0 : Nat) (acc : Option (Nat × Nat)),
      pts.drop i0 = l → MinAcc skip pts i0 acc →
      MinAcc skip pts (i0 + l.length) (Game.minFirstAux skip i0 acc l) := by
  intro l
  induction l with
  | nil =>
    intro i0 acc _ hacc
    simpa [Game.minFirstAux] using hacc
  | cons p rest ih =>
    intro i0 acc hdrop hacc
    obtain ⟨hget, hdrop'⟩ := drop_eq_cons_split pts i0 p rest hdrop
    have hlen : i0 + (p :: rest).length = (i0 + 1) + rest.length := by
      simp [List.length_cons]; omega
    rw [hlen]
    simp only [Game.minFirstAux]
    apply ih (i0 + 1) _ hdrop'
    by_cases hsk : skip i0
    · simp only [hsk, if_true]
      cases acc with
      | none =>
        intro i hi
        rcases Nat.lt_succ_iff_lt_or_eq.mp hi with h | h
        · exact hacc i h
        · subst h; exact hsk
      | some jq =>
        obtain ⟨h1, h2, h3, h4, h5⟩ := hacc
        refine ⟨Nat.lt_succ_of_lt h1, h2, h3, ?_, h5⟩
        intro i hi hsf
        rcases Nat.lt_succ_iff_lt_or_eq.mp hi with h | h
        · exact h4 i h hsf
        · subst h; exact absurd hsk (by simp [hsf])
    · have hskf : skip i0 = false := by simpa using hsk
      simp only [hskf, Bool.false_eq_true, if_false]
      cases acc with
      | none =>
        refine ⟨Nat.lt_succ_self i0, hskf, by simp [← List.get?_eq_getElem?, hget], ?_, ?_⟩
        · intro i hi hsf
          rcases Nat.lt_succ_iff_lt_or_eq.mp hi with h | h
          · exact absurd (hacc i h) (by simp [hsf])
          · subst h; simp [← List.get?_eq_getElem?, hget]
        · intro i hi hsf
          exact absurd (hacc i hi) (by simp [hsf])
      | some jq =>
        obtain ⟨h1, h2, h3, h4, h5⟩ := hacc
        by_cases hp : p < jq.2
        · simp only [hp, if_true]
          refine ⟨Nat.lt_succ_self i0, hskf, by simp [← List.get?_eq_getElem?, hget], ?_, ?_⟩
          · intro i hi hsf
            rcases Nat.lt_succ_iff_lt_or_eq.mp hi with h | h
            · exact le_of_lt (lt_of_lt_of_le hp (h4 i h hsf))
            · subst h; simp [← List.get?_eq_getElem?, hget]
          · intro i hi hsf
            exact lt_of_lt_of_le hp (h4 i hi hsf)
        · simp only [hp, if_false]
          refine ⟨Nat.lt_succ_of_lt h1, h2, h3, ?_, h5⟩
          intro i hi hsf
          rcases Nat.lt_succ_iff_lt_or_eq.mp hi with h | h
          · exact h4 i h hsf
          · subst h; simp only [hget, Option.getD_some]; omega

/-- The scan of the whole point list satisfies its invariant. -/
theorem minFirst_spec (skip : Nat → Bool) (pts : List Nat) :
    MinAcc skip pts pts.length (Game.minFirstAux skip 0 none pts) := by
  have h := minFirstAux_inv skip pts pts 0 none (by simp) (by intro i hi; omega)
  simpa using h

/-- The scan finds something as soon as one index is not skipped. -/
theorem minFirst_isSome (skip : Nat → Bool) (pts : List Nat) (i : Nat)
    (hi : i < pts.length) (hs : skip i = false) :
    ∃ jq, Game.minFirstAux skip 0 none pts = some jq := by
  cases h : Game.minFirstAux skip 0 none pts with
  | some jq => exact ⟨jq, rfl⟩
  | none =>
    have hspec := minFirst_spec skip pts
    rw [h] at hspec
    exact absurd (hspec i hi) (by simp [hs])

/-! Helper lemmas about the rank-index insertion sort. -/

/-- Membership is preserved by `insertRank`. -/
theorem mem_insertRank {x c : Card} {l : List Card} :
    x ∈ insertRank c l ↔ x = c ∨ x ∈ l := by
  induction l with
  | nil => simp [insertRank]
  | cons d rest ih =>
    by_cases h : c.rankIndex ≤ d.rankIndex
    · simp [insertRank, h]
    · simp only [insertRank, h, if_false, List.mem_cons, ih]
      tauto

/-- Membership is preserved by `sortRank`. -/
theorem mem_sortRank {x : Card} {l : List Card} :
    x ∈ sortRank l ↔ x ∈ l := by
  induction l with
  | nil => simp [sortRank]
  | cons c rest ih => simp [sortRank, mem_insertRank, ih]

/-- `insertRank` grows the length by one. -/
theorem length_insertRank (c : Card) (l : List Card) :
    (insertRank c l).length = l.length + 1 := by
  induction l with
  | nil => rfl
  | cons d rest ih =>
    by_cases h : c.rankIndex ≤ d.rankIndex
    · simp [insertRank, h]
    · simp [insertRank, h, ih]

/-- `sortRank` preserves the length. -/
theorem length_sortRank (l : List Card) :
    (sortRank l).length = l.length := by
  induction l with
  | nil => rfl
  | cons c rest ih => simp [sortRank, length_insertRank, ih]

/-- `insertRank` preserves sortedness by rank index. -/
theorem chain_insertRank {c : Card} {l : List Card}
    (h : List.Chain' (fun a b => a.rankIndex ≤ b.rankIndex) l) :
    List.Chain' (fun a b => a.rankIndex ≤ b.rankIndex) (insertRank c l) := by
  induction l with
  | nil => simp [insertRank]
  | cons d rest ih =>
    by_cases hc : c.rankIndex ≤ d.rankIndex
    · simp only [insertRank, hc, if_true]
      exact List.chain'_cons.mpr ⟨hc, h⟩
    · have hdc : d.rankIndex ≤ c.rankIndex := le_of_lt (Nat.lt_of_not_le hc)
      rw [List.chain'_cons'] at h
      simp only [insertRank, hc, if_false]
      rw [List.chain'_cons']
      refine ⟨?_, ih h.2⟩
      intro y hy
      cases rest with
      | nil => simp [insertRank] at hy; subst hy; exact hdc
      | cons e rest' =>
        by_cases he : c.rankIndex ≤ e.rankIndex
        · simp [insertRank, he] at hy; subst hy; exact hdc
        · simp only [insertRank, he, if_false, List.head?_cons, Option.mem_def,
            Option.some.injEq] at hy
          subst hy
          exact h.1 e rfl

/-- The output of `sortRank` is sorted by rank index. -/
theorem chain_sortRank (l : List Card) :
    List.Chain' (fun a b => a.rankIndex ≤ b.rankIndex) (sortRank l) := by
  induction l with
  | nil => simp [sortRank]
  | cons c rest ih => exact chain_insertRank ih

/-- In a rank-sorted list, the head has the least rank index. -/
theorem chain_head_min {l : List Card} {m : Card}
    (hc : List.Chain' (fun a b => a.rankIndex ≤ b.rankIndex) l)
    (hh : l.head? = some m) :
    ∀ x ∈ l, m.rankIndex ≤ x.rankIndex := by
  induction l generalizing m with
  | nil => simp at hh
  | cons a rest ih =>
    simp only [List.head?_cons, Option.some.injEq] at hh
    subst hh
    intro x hx
    rcases List.mem_cons.mp hx with h | h
    · subst h; exact le_refl _
    · cases rest with
      | nil => simp at h
      | cons b rest' =>
        rw [List.chain'_cons] at hc
        exact le_trans hc.1 (ih hc.2 rfl x h)

/-- In a rank-sorted list, the last element has the greatest rank index. -/
theorem chain_last_max {l : List Card} {M : Card}
    (hc : List.Chain' (fun a b => a.rankIndex ≤ b.rankIndex) l)
    (hl : l.getLast? = some M) :
    ∀ x ∈ l, x.rankIndex ≤ M.rankIndex := by
  induction l with
  | nil => simp at hl
  | cons a rest ih =>
    intro x hx
    cases rest with
    | nil =>
      simp only [List.getLast?_singleton, Option.some.injEq] at hl
      subst hl
      simp at hx
      subst hx
      exact le_refl _
    | cons b rest' =>
      rw [List.chain'_cons] at hc
      rw [List.getLast?_cons_cons] at hl
      have hbm : b.rankIndex ≤ M.rankIndex := ih hc.2 hl b (List.mem_cons_self b rest')
      rcases List.mem_cons.mp hx with h | h
      · subst h; exact le_trans hc.1 hbm
      · exact ih hc.2 hl x h

/-- `sortRank` sends nonempty lists to nonempty lists. -/
theorem sortRank_ne_nil {l : List Card} (h : l ≠ []) : sortRank l ≠ [] := by
  intro hc
  have := length_sortRank l
  rw [hc] at this
  exact h (List.length_eq_zero.mp this.symm)

/-- The head of `sortRank l` is a member of `l` of least rank index. -/
theorem sortRank_head_min (l : List Card) (h : l ≠ []) :
    ∃ m, (sortRank l).head? = some m ∧ m ∈ l ∧ ∀ x ∈ l, m.rankIndex ≤ x.rankIndex := by
  cases hs : sortRank l with
  | nil => exact absurd hs (sortRank_ne_nil h)
  | cons a t =>
    refine ⟨a, rfl, ?_, ?_⟩
    · exact mem_sortRank.mp (hs ▸ List.mem_cons_self a t)
    · intro x hx
      have hx' : x ∈ sortRank l := mem_sortRank.mpr hx
      have := chain_head_min (chain_sortRank l) (by rw [hs]; rfl)
      exact this x hx'

/-- The last element of `sortRank l` is a member of `l` of greatest rank
index. -/
theorem sortRank_last_max (l : List Card) (h : l ≠ []) :
    ∃ M, (sortRank l).getLast? = some M ∧ M ∈ l ∧ ∀ x ∈ l, x.rankIndex ≤ M.rankIndex := by
  cases hM : (sortRank l).getLast? with
  | none => exact absurd (List.getLast?_eq_none_iff.mp hM) (sortRank_ne_nil h)
  | some M =>
    refine ⟨M, rfl, ?_, ?_⟩
    · have hmem : M ∈ (sortRank l).getLast? := by rw [hM]; rfl
      obtain ⟨hne, hMe⟩ := List.mem_getLast?_eq_getLast hmem
      exact mem_sortRank.mp (hMe ▸ List.getLast_mem hne)
    · intro x hx
      exact chain_last_max (chain_sortRank l) hM x (mem_sortRank.mpr hx)

/-- Cards of equal rank have equal rank index. -/
theorem rankIndex_eq_of_rank_eq {c d : Card} (h : c.rank = d.rank) :
    c.rankIndex = d.rankIndex := by
  cases c with
  | mk cs cr =>
    cases d with
    | mk ds dr =>
      simp only at h
      subst h
      rfl

/-- The Boolean consecutive-rank scan agrees with the successor chain. -/
theorem consecutive_iff_chain {l : List Card} :
    consecutive l = true ↔ List.Chain' (fun a b => b.rankIndex = a.rankIndex + 1) l := by
  induction l with
  | nil => simp [consecutive]
  | cons a rest ih =>
    cases rest with
    | nil => simp [consecutive]
    | cons b rest' =>
      rw [consecutive, Bool.and_eq_true, List.chain'_cons, beq_iff_eq]
      rw [ih]

/-! Spec-level predicates used to state the claims about spread validity. -/

/-- All cards share one rank. -/
def UniformRank (cards : List Card) : Prop :=
  ∀ c ∈ cards, ∀ d ∈ cards, c.rank = d.rank

/-- All cards share one suit. -/
def UniformSuit (cards : List Card) : Prop :=
  ∀ c ∈ cards, ∀ d ∈ cards, c.suit = d.suit

/-- The rank indices, sorted ascending, increase by exactly one at each
step (the contiguity requirement of a run). -/
def ContigIdx (cards : List Card) : Prop :=
  List.Chain' (fun a b => b.rankIndex = a.rankIndex + 1) (sortRank cards)

/-- A card set passing the book rule has uniform rank. -/
theorem isValidBook_uniformRank {cards : List Card}
    (h : Spread.isValidBook cards = true) : UniformRank cards := by
  match cards with
  | [] => simp [Spread.isValidBook, MIN_SPREAD_SIZE] at h
  | c0 :: rest =>
    rw [Spread.isValidBook] at h
    split at h
    · simp at h
    · split at h
      · simp at h
      · simp only [List.all_eq_true, beq_iff_eq] at h
        intro c hc d hd
        rw [h c hc, h d hd]

/-- A card set passing the run rule has uniform suit and contiguous sorted
rank indices. -/
theorem isValidRun_props {cards : List Card}
    (h : Spread.isValidRun cards = true) :
    UniformSuit cards ∧ ContigIdx cards := by
  match cards with
  | [] => simp [Spread.isValidRun, MIN_SPREAD_SIZE] at h
  | c0 :: rest =>
    rw [Spread.isValidRun] at h
    split at h
    · simp at h
    · split at h
      · simp at h
      · rename_i hsuit
        simp only [Bool.not_eq_true', Bool.not_eq_false, List.all_eq_true, beq_iff_eq] at hsuit
        constructor
        · intro c hc d hd
          rw [hsuit c hc, hsuit d hd]
        · exact consecutive_iff_chain.mp h

/-- A uniform-rank set of at least two cards cannot pass the consecutive
scan: two equal rank indices cannot differ by one. -/
theorem uniformRank_not_consecutive {cards : List Card}
    (hu : UniformRank cards) (h2 : 2 ≤ cards.length) :
    consecutive (sortRank cards) = false := by
  have hlen : 2 ≤ (sortRank cards).length := by rw [length_sortRank]; exact h2
  cases hs : sortRank cards with
  | nil => rw [hs] at hlen; simp at hlen
  | cons a t =>
    cases t with
    | nil => rw [hs] at hlen; simp at hlen
    | cons b t' =>
      have ha : a ∈ cards := mem_sortRank.mp (hs ▸ List.mem_cons_self a (b :: t'))
      have hb : b ∈ cards := mem_sortRank.mp (hs ▸ List.mem_cons_of_mem a (List.mem_cons_self b t'))
      have hr : a.rankIndex = b.rankIndex :=
        rankIndex_eq_of_rank_eq (hu a ha b hb)
      rw [consecutive]
      have : (b.rankIndex == a.rankIndex + 1) = false := by
        rw [beq_eq_false_iff_ne]
        omega
      rw [this, Bool.false_and]

/-- Claim C6: `Spread.validate` rejects every set of fewer than 3 cards,
every set that is neither uniform-rank nor uniform-suit-contiguous
(including the gapped same-suit set 4♠,5♠,7♠), and every uniform-rank set
of 5 or more cards; and no card set is simultaneously a valid book and a
valid run, so the returned type is unambiguous. -/
theorem claim_C6_validate :
    (∀ cards : List Card, cards.length < 3 → Spread.validate cards = none) ∧
    (∀ cards : List Card, ¬ UniformRank cards → ¬ (UniformSuit cards ∧ ContigIdx cards) →
      Spread.validate cards = none) ∧
    Spread.validate [⟨.spades, .N4⟩, ⟨.spades, .N5⟩, ⟨.spades, .N7⟩] = none ∧
    (∀ cards : List Card, UniformRank cards → 5 ≤ cards.length →
      Spread.validate cards = none) ∧
    (∀ cards : List Card, ¬ (Spread.isValidBook cards = true ∧ Spread.isValidRun cards = true)) := by
  have hexcl : ∀ cards : List Card,
      ¬ (Spread.isValidBook cards = true ∧ Spread.isValidRun cards = true) := by
    intro cards ⟨hb, hr⟩
    have hu : UniformRank cards := isValidBook_uniformRank hb
    have hlen : 3 ≤ cards.length := by
      by_contra hlt
      rw [Spread.isValidBook.eq_def] at hb
      rw [if_pos (by simp only [MIN_SPREAD_SIZE]; omega)] at hb
      simp at hb
    have hcons : consecutive (sortRank cards) = false :=
      uniformRank_not_consecutive hu (by omega)
    rcases isValidRun_props hr with ⟨-, hchain⟩
    rw [consecutive_iff_chain.mpr hchain] at hcons
    simp at hcons
  refine ⟨?_, ?_, by decide, ?_, hexcl⟩
  · intro cards hlt
    have hsz : cards.length < MIN_SPREAD_SIZE := by simp only [MIN_SPREAD_SIZE]; omega
    have hb : Spread.isValidBook cards = false := by
      rw [Spread.isValidBook.eq_def, if_pos hsz]
    have hr : Spread.isValidRun cards = false := by
      rw [Spread.isValidRun.eq_def, if_pos hsz]
    rw [Spread.validate, hb, hr]
    simp
  · intro cards hnr hnrc
    rw [Spread.validate]
    cases hb : Spread.isValidBook cards with
    | true => exact absurd (isValidBook_uniformRank hb) hnr
    | false =>
      cases hr : Spread.isValidRun cards with
      | true => exact absurd (isValidRun_props hr) hnrc
      | false => simp
  · intro cards hu hlen
    have hb : Spread.isValidBook cards = false := by
      rw [Spread.isValidBook.eq_def]
      rw [if_neg (by simp only [MIN_SPREAD_SIZE]; omega), if_pos (by omega)]
    have hr : Spread.isValidRun cards = false := by
      cases hrv : Spread.isValidRun cards with
      | false => rfl
      | true =>
        exfalso
        rcases isValidRun_props hrv with ⟨-, hchain⟩
        have hf := uniformRank_not_consecutive hu (by omega)
        rw [consecutive_iff_chain.mpr hchain] at hf
        simp at hf
    rw [Spread.validate, hb, hr]
    simp

/-- The spread 5♠,6♠,7♠ laid as a run, for the concrete part of claim C7. -/
def run567 : Spread :=
  ⟨[⟨.spades, .N5⟩, ⟨.spades, .N6⟩, ⟨.spades, .N7⟩], .run⟩

/-- Claim C7: `canAddCard` accepts a card into a book exactly when the book
has fewer than 4 cards and the ranks match, and into a run exactly when the
suits match and the rank index extends one of the two open ends; on the run
5♠,6♠,7♠ it accepts 4♠ and 8♠ and rejects 6♥ and 9♠. -/
theorem claim_C7_canAddCard (s : Spread) (c : Card) (h : s.cards ≠ []) :
    (s.stype = SpreadType.book →
      (s.canAddCard c = true ↔ s.cards.length < 4 ∧
        ∃ c0, s.cards.head? = some c0 ∧ c.rank = c0.rank)) ∧
    (s.stype = SpreadType.run →
      ∃ m M, m ∈ s.cards ∧ M ∈ s.cards ∧
        (∀ x ∈ s.cards, m.rankIndex ≤ x.rankIndex) ∧
        (∀ x ∈ s.cards, x.rankIndex ≤ M.rankIndex) ∧
        (s.canAddCard c = true ↔
          (∃ c0, s.cards.head? = some c0 ∧ c.suit = c0.suit) ∧
            (c.rankIndex + 1 = m.rankIndex ∨ c.rankIndex = M.rankIndex + 1))) ∧
    (run567.canAddCard ⟨.spades, .N4⟩ = true ∧
     run567.canAddCard ⟨.spades, .N8⟩ = true ∧
     run567.canAddCard ⟨.hearts, .N6⟩ = false ∧
     run567.canAddCard ⟨.spades, .N9⟩ = false) := by
  obtain ⟨cards, ty⟩ := s
  simp only at h
  obtain ⟨c0, rest, rfl⟩ : ∃ c0 rest, cards = c0 :: rest := by
    cases cards with
    | nil => exact absurd rfl h
    | cons a t => exact ⟨a, t, rfl⟩
  refine ⟨?_, ?_, by decide⟩
  · intro ht
    simp only at ht
    subst ht
    rw [Spread.canAddCard]
    by_cases h4 : 4 ≤ (c0 :: rest).length
    · rw [Spread.canAddToBook, if_pos h4]
      simp only [List.head?_cons, Option.some.injEq]
      constructor
      · intro hf; simp at hf
      · intro ⟨hlt, _⟩; omega
    · rw [Spread.canAddToBook, if_neg h4]
      simp only [List.head?_cons, Option.some.injEq, beq_iff_eq]
      constructor
      · intro hrk; exact ⟨by omega, c0, rfl, hrk⟩
      · intro ⟨_, c0', hc0', hrk⟩; rw [hc0']; exact hrk
  · intro ht
    simp only at ht
    subst ht
    obtain ⟨m, hm, hmmem, hmin⟩ := sortRank_head_min (c0 :: rest) (by simp)
    obtain ⟨M, hM, hMmem, hmax⟩ := sortRank_last_max (c0 :: rest) (by simp)
    refine ⟨m, M, hmmem, hMmem, hmin, hmax, ?_⟩
    rw [Spread.canAddCard, Spread.canAddToRun]
    simp only [List.head?_cons, Option.some.injEq]
    by_cases hsu : c.suit = c0.suit
    · have : (c.suit != c0.suit) = false := by simp [hsu]
      rw [this, if_neg (by simp)]
      rw [hm, hM]
      simp only [Bool.or_eq_true, beq_iff_eq]
      constructor
      · intro hor
        exact ⟨⟨c0, rfl, hsu⟩, hor⟩
      · intro ⟨_, hor⟩
        exact hor
    · have : (c.suit != c0.suit) = true := by simp [hsu]
      rw [this, if_pos rfl]
      constructor
      · intro hf; simp at hf
      · intro ⟨⟨c0', hc0', hsu'⟩, _⟩
        rw [← hc0'] at hsu'
        exact absurd hsu' hsu

/-- Concrete witness for claim C7: its characterization applied to the run
5♠,6♠,7♠ yields the four concrete acceptance facts of the spec. -/
theorem claim_C7_witness :
    run567.canAddCard ⟨.spades, .N4⟩ = true ∧
    run567.canAddCard ⟨.spades, .N8⟩ = true ∧
    run567.canAddCard ⟨.hearts, .N6⟩ = false ∧
    run567.canAddCard ⟨.spades, .N9⟩ = false :=
  (claim_C7_canAddCard run567 ⟨.spades, .N4⟩ (by decide)).2.2

/-- Concrete witness for claim C6: the characterization rejects a 2-card
set. -/
theorem claim_C6_witness :
    Spread.validate [⟨.hearts, .A⟩, ⟨.hearts, .N2⟩] = none :=
  claim_C6_validate.1 [⟨.hearts, .A⟩, ⟨.hearts, .N2⟩] (by decide)

/-- Claim C9: the computer player knocks whenever its hand totals at most 3
points; at 4 or 5 points exactly when the hand has no candidate spreads or
at most 2 cards; and never above 5 points. -/
theorem claim_C9_shouldKnock (hand : List Card) :
    ((hand.map Card.value).sum ≤ 3 → shouldKnock hand = true) ∧
    (4 ≤ (hand.map Card.value).sum → (hand.map Card.value).sum ≤ 5 →
      (shouldKnock hand = true ↔ (findPossibleSpreads hand = [] ∨ hand.length ≤ 2))) ∧
    (6 ≤ (hand.map Card.value).sum → shouldKnock hand = false) := by
  refine ⟨?_, ?_, ?_⟩
  · intro h3
    simp only [shouldKnock]
    rw [if_pos h3]
  · intro h4 h5
    simp only [shouldKnock]
    rw [if_neg (by omega), if_pos h5]
    constructor
    · intro ht
      split at ht
      · rename_i hc
        simp only [Bool.or_eq_true, beq_iff_eq, decide_eq_true_eq] at hc
        rcases hc with hc | hc
        · left
          exact List.length_eq_zero.mp hc
        · right
          exact hc
      · simp at ht
    · intro hr
      have hc : (countSpreadPotential hand == 0 || decide (hand.length ≤ 2)) = true := by
        simp only [Bool.or_eq_true, beq_iff_eq, decide_eq_true_eq]
        rcases hr with hr | hr
        · left
          simp [countSpreadPotential, hr]
        · right
          exact hr
      rw [if_pos hc]
  · intro h6
    simp only [shouldKnock]
    rw [if_neg (by omega), if_neg (by omega)]

/-- Claim C8: `applyRoundScoring` leaves the winner's cumulative score
unchanged, adds to every other player exactly its current hand points, and
changes nothing else in the game state. -/
theorem claim_C8_applyRoundScoring (g : GameState) (w : Nat)
    (hw : g.winner = some w) (hwlt : w < g.players.length) :
    (Game.applyRoundScoring g).matchScores.getD w 0 = g.matchScores.getD w 0 ∧
    (∀ i, i < g.players.length → i ≠ w →
      (Game.applyRoundScoring g).matchScores.getD i 0 =
        g.matchScores.getD i 0 + ptsAt g i) ∧
    (Game.applyRoundScoring g).deck = g.deck ∧
    (Game.applyRoundScoring g).players = g.players ∧
    (Game.applyRoundScoring g).phase = g.phase ∧
    (Game.applyRoundScoring g).spreadsOnTable = g.spreadsOnTable ∧
    (Game.applyRoundScoring g).pot = g.pot ∧
    (Game.applyRoundScoring g).currentPlayerIndex = g.currentPlayerIndex ∧
    (Game.applyRoundScoring g).winner = g.winner ∧
    (Game.applyRoundScoring g).winCondition = g.winCondition ∧
    (Game.applyRoundScoring g).highestBet = g.highestBet ∧
    (Game.applyRoundScoring g).roundNumber = g.roundNumber ∧
    (Game.applyRoundScoring g).hasDrawnThisTurn = g.hasDrawnThisTurn := by
  have hscore : ∀ i, i < g.players.length → ∀ p, g.players.get? i = some p →
      (Game.applyRoundScoring g).matchScores.getD i 0 =
        g.matchScores.getD i 0 + (if some i = g.winner then 0 else p.calculatePoints) := by
    intro i hi p hp
    simp only [Game.applyRoundScoring]
    have h1 : (g.players.enum.map fun ip =>
        g.matchScores.getD ip.1 0 +
          (if some ip.1 = g.winner then 0 else ip.2.calculatePoints)).get? i =
        some (g.matchScores.getD i 0 + (if some i = g.winner then 0 else p.calculatePoints)) := by
      rw [List.get?_map, List.get?_enum, hp]
      rfl
    rw [List.getD_eq_getD_get?, h1]
    rfl
  obtain ⟨pw, hpw⟩ : ∃ p, g.players.get? w = some p := by
    cases hq : g.players.get? w with
    | none => exact absurd (List.get?_eq_none.mp hq) (by omega)
    | some p => exact ⟨p, rfl⟩
  refine ⟨?_, ?_, rfl, rfl, rfl, rfl, rfl, rfl, rfl, rfl, rfl, rfl, rfl⟩
  · rw [hscore w hwlt pw hpw, hw]
    simp
  · intro i hi hne
    obtain ⟨p, hp⟩ : ∃ p, g.players.get? i = some p := by
      cases hq : g.players.get? i with
      | none => exact absurd (List.get?_eq_none.mp hq) (by omega)
      | some p => exact ⟨p, rfl⟩
    rw [hscore i hi p hp, hw]
    have : (some i = some w) = False := by simp [hne]
    rw [if_neg (by simp [hne])]
    have hpts : ptsAt g i = p.calculatePoints := by
      simp only [ptsAt]
      rw [List.get?_map, hp]
      rfl
    rw [hpts]

/-- Hand points at a seat, read through `players.get?`. -/
theorem ptsAt_of_get? {g : GameState} {i : Nat} {p : Player}
    (h : g.players.get? i = some p) : ptsAt g i = p.calculatePoints := by
  simp only [ptsAt]
  rw [List.get?_map, h]
  rfl

/-- Claim C3: in `START_OF_TURN`, `knock` ends the round in `GAME_OVER`; the
knocker wins as `KNOCK` exactly when strictly below every other player, and
otherwise the first other player holding the minimum wins as `CAUGHT` (a
knocker tying the minimum is caught). -/
theorem claim_C3_knock (g : GameState)
    (hphase : g.phase = Phase.START_OF_TURN)
    (hk : g.currentPlayerIndex < g.players.length)
    (hn : 2 ≤ g.players.length) :
    ∃ g', Game.knock g = Except.ok g' ∧ g'.phase = Phase.GAME_OVER ∧
      ((∀ i, i < g.players.length → i ≠ g.currentPlayerIndex →
          ptsAt g g.currentPlayerIndex < ptsAt g i) →
        g'.winner = some g.currentPlayerIndex ∧ g'.winCondition = some WinCondition.KNOCK) ∧
      ((∃ i, i < g.players.length ∧ i ≠ g.currentPlayerIndex ∧
          ptsAt g i ≤ ptsAt g g.currentPlayerIndex) →
        g'.winCondition = some WinCondition.CAUGHT ∧
        ∃ j, g'.winner = some j ∧ j ≠ g.currentPlayerIndex ∧ j < g.players.length ∧
          (∀ i, i < g.players.length → i ≠ g.currentPlayerIndex → ptsAt g j ≤ ptsAt g i) ∧
          (∀ i, i < j → i ≠ g.currentPlayerIndex → ptsAt g j < ptsAt g i)) := by
  obtain ⟨knocker, hgp⟩ : ∃ p, g.players.get? g.currentPlayerIndex = some p := by
    cases hq : g.players.get? g.currentPlayerIndex with
    | none => exact absurd (List.get?_eq_none.mp hq) (by omega)
    | some p => exact ⟨p, rfl⟩
  have hlenpts : (g.players.map Player.calculatePoints).length = g.players.length :=
    List.length_map _ _
  obtain ⟨i0, hi0lt, hi0ne⟩ : ∃ i0, i0 < g.players.length ∧ i0 ≠ g.currentPlayerIndex := by
    by_cases h0 : g.currentPlayerIndex = 0
    · exact ⟨1, by omega, by omega⟩
    · exact ⟨0, by omega, fun hc => h0 hc.symm⟩
  obtain ⟨jq, hjq⟩ := minFirst_isSome (fun i => i == g.currentPlayerIndex)
    (g.players.map Player.calculatePoints) i0 (by omega)
    (beq_eq_false_iff_ne.mpr hi0ne)
  have hspec := minFirst_spec (fun i => i == g.currentPlayerIndex)
    (g.players.map Player.calculatePoints)
  rw [hjq] at hspec
  obtain ⟨hj1, hj2, hj3, hj4, hj5⟩ := hspec
  have hjne : jq.1 ≠ g.currentPlayerIndex := beq_eq_false_iff_ne.mp hj2
  have hjv : jq.2 = ptsAt g jq.1 := hj3
  have hkv : ptsAt g g.currentPlayerIndex = knocker.calculatePoints := ptsAt_of_get? hgp
  rw [Game.knock]
  rw [if_neg (by rw [hphase]; simp)]
  rw [hgp, hjq]
  dsimp only
  by_cases hlt : knocker.calculatePoints < jq.2
  · rw [if_pos hlt]
    refine ⟨_, rfl, rfl, fun _ => ⟨rfl, rfl⟩, ?_⟩
    intro ⟨i, hi, hine, hile⟩
    exfalso
    have h1 : jq.2 ≤ ptsAt g i := hj4 i (by omega) (beq_eq_false_iff_ne.mpr hine)
    rw [hkv] at hile
    omega
  · rw [if_neg hlt]
    refine ⟨_, rfl, rfl, ?_, ?_⟩
    · intro hA
      exfalso
      have h1 : ptsAt g g.currentPlayerIndex < ptsAt g jq.1 :=
        hA jq.1 (by omega) hjne
      rw [hkv, ← hjv] at h1
      omega
    · intro _
      refine ⟨rfl, jq.1, rfl, hjne, by omega, ?_, ?_⟩
      · intro i hi hine
        rw [← hjv]
        exact hj4 i (by omega) (beq_eq_false_iff_ne.mpr hine)
      · intro i hi hine
        rw [← hjv]
        exact hj5 i hi (beq_eq_false_iff_ne.mpr hine)

/-- Claim C5: `drawFromDeck` in the `DRAW` phase with an empty draw pile
ends the round at once as `STOCK_EMPTY` without error and without touching
the deck, the discard pile or any hand (so no discard is required and
nothing is reshuffled); the winner is the first seat holding the minimum
hand points over all players, the current player included. -/
theorem claim_C5_stockEmpty (g : GameState)
    (hphase : g.phase = Phase.DRAW)
    (hempty : g.deck.cards = [])
    (hne : g.players ≠ []) :
    ∃ g', Game.drawFromDeck g = Except.ok (g', none) ∧
      g'.phase = Phase.GAME_OVER ∧ g'.winCondition = some WinCondition.STOCK_EMPTY ∧
      g'.deck = g.deck ∧ g'.players = g.players ∧
      ∃ j, g'.winner = some j ∧ j < g.players.length ∧
        (∀ i, i < g.players.length → ptsAt g j ≤ ptsAt g i) ∧
        (∀ i, i < j → ptsAt g j < ptsAt g i) := by
  have hlen0 : 0 < g.players.length := List.length_pos.mpr hne
  obtain ⟨jq, hjq⟩ := minFirst_isSome (fun _ => false)
    (g.players.map Player.calculatePoints) 0 (by rw [List.length_map]; omega) rfl
  have hspec := minFirst_spec (fun _ => false) (g.players.map Player.calculatePoints)
  rw [hjq] at hspec
  obtain ⟨hj1, -, hj3, hj4, hj5⟩ := hspec
  have hjv : jq.2 = ptsAt g jq.1 := hj3
  rw [List.length_map] at hj1
  rw [Game.drawFromDeck]
  rw [if_neg (by rw [hphase]; simp)]
  have hdraw : g.deck.draw = none := by
    rw [Deck.draw, hempty]
    rfl
  rw [hdraw, Game.endGameStockEmpty, hjq]
  refine ⟨_, rfl, rfl, rfl, rfl, rfl, jq.1, rfl, hj1, ?_, ?_⟩
  · intro i hi
    rw [← hjv]
    exact hj4 i (by rw [List.length_map]; omega) rfl
  · intro i hi
    rw [← hjv]
    exact hj5 i hi rfl

/-- A seat is reported by `checkInitialTonk` exactly when its player's hand
scores 49 or 50 points. -/
theorem mem_checkInitialTonk (g : GameState) (i : Nat) :
    i ∈ Game.checkInitialTonk g ↔
      ∃ p, g.players.get? i = some p ∧ 49 ≤ p.calculatePoints ∧ p.calculatePoints ≤ 50 := by
  rw [Game.checkInitialTonk]
  constructor
  · intro h
    obtain ⟨⟨j, p⟩, hmem, hfst⟩ := List.mem_map.mp h
    obtain ⟨henum, hP⟩ := List.mem_filter.mp hmem
    simp only at hfst
    subst hfst
    refine ⟨p, List.mk_mem_enum_iff_get?.mp henum, ?_⟩
    simpa [hasInitialTonk] using hP
  · intro ⟨p, hp, h49, h50⟩
    refine List.mem_map.mpr ⟨(i, p), List.mem_filter.mpr ⟨List.mk_mem_enum_iff_get?.mpr hp, ?_⟩, rfl⟩
    simp [hasInitialTonk, h49, h50]

/-- Claim C4: a dealt hand is an initial tonk exactly at 49 or 50 points
(48 and 51 do not qualify); after an ante-deal attempt, no qualifying seat
sends play to `START_OF_TURN` with seat 0 to act, exactly one ends the
round at once as `INITIAL_TONK` for that seat, and two or more reset every
hand, install the next freshly shuffled deck, and repeat the deal from
scratch. -/
theorem claim_C4_initialTonk (fuel : Nat) (oracle : List (List Card)) (g : GameState)
    (h0 : g.currentPlayerIndex = 0) :
    (∀ p : Nat, hasInitialTonk p = true ↔ (49 ≤ p ∧ p ≤ 50)) ∧
    (∀ i, i ∈ Game.checkInitialTonk (Game.dealAttempt g) ↔
      ∃ p, (Game.dealAttempt g).players.get? i = some p ∧
        49 ≤ p.calculatePoints ∧ p.calculatePoints ≤ 50) ∧
    (Game.checkInitialTonk (Game.dealAttempt g) = [] →
      Game.dealAndCheckInitialTonk (fuel + 1) oracle g =
        some { Game.dealAttempt g with phase := Phase.START_OF_TURN } ∧
      (Game.dealAttempt g).currentPlayerIndex = 0) ∧
    (∀ i, Game.checkInitialTonk (Game.dealAttempt g) = [i] →
      Game.dealAndCheckInitialTonk (fuel + 1) oracle g =
        some { Game.dealAttempt g with
               winner := some i,
               winCondition := some WinCondition.INITIAL_TONK,
               phase := Phase.GAME_OVER }) ∧
    (2 ≤ (Game.checkInitialTonk (Game.dealAttempt g)).length →
      ∀ d rest, oracle = d :: rest →
        Game.dealAndCheckInitialTonk (fuel + 1) oracle g =
          Game.dealAndCheckInitialTonk fuel rest
            { Game.dealAttempt g with
              players := (Game.dealAttempt g).players.map Player.reset,
              deck := ⟨d, []⟩ }) := by
  have hcur : (Game.dealAttempt g).currentPlayerIndex = 0 := by
    simp only [Game.dealAttempt, Game.deal]
    have hpass : ∀ n h, (Game.dealPasses n h).currentPlayerIndex = h.currentPlayerIndex := by
      intro n
      induction n with
      | zero => intro h; rfl
      | succ m ih => intro h; rw [Game.dealPasses, ih]; rfl
    split
    · rw [hpass]
      simp [Game.collectAntes, h0]
    · rw [hpass]
      simp [Game.collectAntes, h0]
  refine ⟨?_, fun i => mem_checkInitialTonk _ i, ?_, ?_, ?_⟩
  · intro p
    simp [hasInitialTonk]
  · intro ht
    refine ⟨?_, hcur⟩
    simp only [Game.dealAndCheckInitialTonk, ht]
    norm_num
  · intro i ht
    simp only [Game.dealAndCheckInitialTonk, ht]
    norm_num
  · intro ht d rest horacle
    subst horacle
    simp only [Game.dealAndCheckInitialTonk]
    rw [if_pos (by omega)]

/-- Chips conservation of the ante loop: the collected pot plus the chips
left with the players equals the chips they held before. -/
theorem anteFold_pot_sum (ps : List Player) :
    (Game.anteFold ps).2 + sumChips (Game.anteFold ps).1 = sumChips ps := by
  induction ps with
  | nil => rfl
  | cons p rest ih =>
    rw [Game.anteFold]
    by_cases he : p.isEliminated
    · simp only [sumChips] at ih ⊢
      simp [he]
      omega
    · simp only [sumChips] at ih ⊢
      simp [he, Player.bet, Player.resetBet]
      have hmin : min ANTE_AMOUNT p.chips ≤ p.chips := Nat.min_le_right _ _
      omega

/-- Per-player effect of the ante loop: eliminated players are untouched,
every other player pays `min ANTE_AMOUNT chips` and carries it as the
current bet. -/
theorem anteFold_get? : ∀ (ps : List Player) (i : Nat) (p : Player),
    ps.get? i = some p →
    (Game.anteFold ps).1.get? i = some
      (if p.isEliminated then p
       else { p with chips := p.chips - min ANTE_AMOUNT p.chips,
                     currentBet := min ANTE_AMOUNT p.chips }) := by
  intro ps
  induction ps with
  | nil => intro i p h; simp at h
  | cons q rest ih =>
    intro i p h
    cases i with
    | zero =>
      have hq : q = p := by simpa using h
      subst hq
      rw [Game.anteFold]
      by_cases he : q.isEliminated
      · simp [he]
      · simp [he, Player.bet, Player.resetBet]
    | succ j =>
      simp only [List.get?_cons_succ] at h
      rw [Game.anteFold]
      by_cases he : q.isEliminated
      · simp only [he, if_true, List.get?_cons_succ]
        exact ih j p h
      · simp only [he, if_false, List.get?_cons_succ]
        exact ih j p h

/-- Dealing one pass moves cards only; chips are untouched. -/
theorem dealPassAux_chips (d : Deck) : ∀ ps : List Player,
    sumChips (Game.dealPassAux d ps).2 = sumChips ps := by
  intro ps
  induction ps generalizing d with
  | nil => rfl
  | cons p rest ih =>
    rw [Game.dealPassAux]
    cases hd : d.draw with
    | none =>
      simp only [sumChips, List.map_cons, List.sum_cons]
      have := ih d
      simp only [sumChips] at this
      omega
    | some cd =>
      simp only [sumChips, List.map_cons, List.sum_cons, Player.addCard]
      have := ih cd.2
      simp only [sumChips] at this
      omega

/-- The full deal preserves every player's chips total and the pot. -/
theorem deal_chips_pot (g : GameState) :
    sumChips (Game.deal g).players = sumChips g.players ∧ (Game.deal g).pot = g.pot := by
  have hpass : ∀ n h, sumChips (Game.dealPasses n h).players = sumChips h.players ∧
      (Game.dealPasses n h).pot = h.pot := by
    intro n
    induction n with
    | zero => intro h; exact ⟨rfl, rfl⟩
    | succ m ih =>
      intro h
      rw [Game.dealPasses]
      refine ⟨?_, ?_⟩
      · rw [(ih _).1]
        exact dealPassAux_chips _ _
      · rw [(ih _).2]
        rfl
  rw [Game.deal]
  split <;> exact hpass _ _

/-- One ante-deal attempt: the chips total plus the freshly collected pot
equals the chips total before the attempt, whatever pot was pending (the
pending pot is simply discarded by `collectAntes`). -/
theorem dealAttempt_total (g : GameState) :
    sumChips (Game.dealAttempt g).players + (Game.dealAttempt g).pot = sumChips g.players := by
  rw [Game.dealAttempt]
  show sumChips (Game.deal (Game.collectAntes g)).players +
      (Game.deal (Game.collectAntes g)).pot = sumChips g.players
  rw [(deal_chips_pot _).1, (deal_chips_pot _).2]
  have := anteFold_pot_sum g.players
  simp only [Game.collectAntes]
  omega

/-- `Player.reset` clears cards only, not chips. -/
theorem sumChips_reset (ps : List Player) :
    sumChips (ps.map Player.reset) = sumChips ps := by
  induction ps with
  | nil => rfl
  | cons p rest ih =>
    simp only [sumChips, List.map_cons, List.sum_cons] at *
    rw [ih]
    rfl

/-- Across the whole redeal loop the chips-plus-pot total never increases:
every voided attempt loses exactly its pot. -/
theorem dealAndCheck_total : ∀ (fuel : Nat) (oracle : List (List Card)) (g r : GameState),
    Game.dealAndCheckInitialTonk fuel oracle g = some r →
    sumChips r.players + r.pot ≤ sumChips g.players := by
  intro fuel
  induction fuel with
  | zero =>
    intro _ _ _ h
    simp [Game.dealAndCheckInitialTonk] at h
  | succ n ih =>
    intro oracle g r h
    simp only [Game.dealAndCheckInitialTonk] at h
    by_cases hlen : 1 < (Game.checkInitialTonk (Game.dealAttempt g)).length
    · rw [if_pos hlen] at h
      cases oracle with
      | nil => simp at h
      | cons d rest =>
        have hrec := ih rest _ r h
        simp only [sumChips_reset] at hrec
        have htot := dealAttempt_total g
        omega
    · rw [if_neg hlen] at h
      cases ht : Game.checkInitialTonk (Game.dealAttempt g) with
      | nil =>
        rw [ht] at h
        simp only [Option.some.injEq] at h
        subst h
        have htot := dealAttempt_total g
        dsimp only
        omega
      | cons i t' =>
        cases t' with
        | nil =>
          rw [ht] at h
          simp only [Option.some.injEq] at h
          subst h
          have htot := dealAttempt_total g
          dsimp only
          omega
        | cons j t'' =>
          rw [ht] at hlen
          simp at hlen

/-- Claim C10 (amended): `collectAntes` zeroes the pot first, so afterwards
the pot is exactly the chips removed from the players in that call; each
non-eliminated player pays `min(ante, chips)` — a full ante only when
affordable; an attempt following a voided deal drops the chips-plus-pot
total by exactly the voided pot, strictly only when that pot was positive;
and across the whole redeal loop the total never increases. -/
theorem claim_C10_antes (g : GameState) :
    ((Game.collectAntes g).pot + sumChips (Game.collectAntes g).players = sumChips g.players) ∧
    (∀ i p, g.players.get? i = some p →
      (Game.collectAntes g).players.get? i = some
        (if p.isEliminated then p
         else { p with chips := p.chips - min ANTE_AMOUNT p.chips,
                       currentBet := min ANTE_AMOUNT p.chips })) ∧
    (sumChips (Game.dealAttempt g).players + (Game.dealAttempt g).pot + g.pot =
      sumChips g.players + g.pot) ∧
    (0 < g.pot →
      sumChips (Game.dealAttempt g).players + (Game.dealAttempt g).pot <
        sumChips g.players + g.pot) ∧
    (∀ fuel oracle r, Game.dealAndCheckInitialTonk fuel oracle g = some r →
      sumChips r.players + r.pot ≤ sumChips g.players + g.pot) := by
  have htot := dealAttempt_total g
  refine ⟨?_, ?_, by omega, by omega, ?_⟩
  · have := anteFold_pot_sum g.players
    simp only [Game.collectAntes]
    omega
  · intro i p hp
    simp only [Game.collectAntes]
    exact anteFold_get? g.players i p hp
  · intro fuel oracle r h
    have := dealAndCheck_total fuel oracle g r h
    omega

/-! Concrete states used by the counterexamples and witnesses. -/

/-- The multiset union of claim C2: draw pile, discard pile, every hand and
every table spread. -/
def cardMultiset (g : GameState) : List Card :=
  g.deck.cards ++ g.deck.discardPile ++
    (g.players.flatMap Player.hand) ++ (g.spreadsOnTable.flatMap Spread.cards)

/-- A player holding only the 9♥. -/
def pHero : Player :=
  { hand := [⟨.hearts, .N9⟩], isHuman := true, spreads := [],
    chips := 100, currentBet := 0, isEliminated := false }

/-- A player holding only the K♣. -/
def pOther : Player :=
  { hand := [⟨.clubs, .K⟩], isHuman := false, spreads := [],
    chips := 100, currentBet := 0, isEliminated := false }

/-- A laid book of three fours. -/
def book4 : Spread :=
  ⟨[⟨.spades, .N4⟩, ⟨.diamonds, .N4⟩, ⟨.clubs, .N4⟩], .book⟩

/-- A mid-round state for claim C1: seat 0 to act at start of turn, a book
of fours on the table, and 4♥ held by nobody (it sits in the draw pile). -/
def gC1 : GameState :=
  { deck := ⟨[⟨.hearts, .N4⟩], [⟨.hearts, .N2⟩]⟩, players := [pHero, pOther],
    currentPlayerIndex := 0, phase := .START_OF_TURN, spreadsOnTable := [book4],
    winner := none, winCondition := none, matchScores := [0, 0], pot := 20,
    highestBet := 10, roundNumber := 1, hasDrawnThisTurn := false }

/-- Claim C1 (failing case): `hitSpread` called with the 4♥, a card the
current player does not hold, succeeds instead of rejecting, and mutates
the table: the spread gains a card that also still sits in the draw pile,
while the hand is unchanged. -/
theorem claim_C1_hitSpread_unowned :
    pHero.hasCard ⟨.hearts, .N4⟩ = false ∧
    ((Game.hitSpread gC1 ⟨.hearts, .N4⟩ 0).toOption.map
      (fun g => g.spreadsOnTable.map Spread.cards)) =
      some [[⟨.spades, .N4⟩, ⟨.diamonds, .N4⟩, ⟨.clubs, .N4⟩, ⟨.hearts, .N4⟩]] ∧
    ((Game.hitSpread gC1 ⟨.hearts, .N4⟩ 0).toOption.map
      (fun g => g.players.map Player.hand)) =
      some [[⟨.hearts, .N9⟩], [⟨.clubs, .K⟩]] ∧
    ((Game.hitSpread gC1 ⟨.hearts, .N4⟩ 0).toOption.map
      (fun g => (cardMultiset g).count ⟨.hearts, .N4⟩)) = some 2 := by
  decide

/-- The state reached by `setupGame` on the identity shuffle and then
`laySpread` of A♥,2♥,3♥ — three cards the current player does not hold
(they are still deep in the draw pile). -/
def c2Laid : Option GameState :=
  match Game.setupGame 2 fullDeckList [] 1 with
  | some g => (Game.laySpread g [⟨.hearts, .A⟩, ⟨.hearts, .N2⟩, ⟨.hearts, .N3⟩]).toOption
  | none => none

/-- Claim C2 (failing case): after `initialize` the 52-card union holds the
A♥ exactly once, but `laySpread` of a valid run the current player does not
hold is accepted and leaves the A♥ counted twice (draw pile and table), so
the 52-card conservation invariant is violated by a public-operation
sequence. -/
theorem claim_C2_conservation_broken :
    ((Game.setupGame 2 fullDeckList [] 1).map
      (fun g => (cardMultiset g).count ⟨.hearts, .A⟩)) = some 1 ∧
    ((Game.setupGame 2 fullDeckList [] 1).map
      (fun g => (cardMultiset g).length)) = some 52 ∧
    ((Game.setupGame 2 fullDeckList [] 1).map
      (fun g => (g.players.map (fun p => p.hasCard ⟨.hearts, .A⟩)))) = some [false, false] ∧
    (c2Laid.map (fun g => (cardMultiset g).count ⟨.hearts, .A⟩)) = some 2 ∧
    (c2Laid.map (fun g => (cardMultiset g).length)) = some 55 := by
  decide

/-- A seated player with no chips at all. -/
def brokePlayer : Player :=
  { hand := [], isHuman := false, spreads := [],
    chips := 0, currentBet := 0, isEliminated := false }

/-- The ten cards ending the rigged deck: dealt round-robin they give seat
0 the four kings and the 10♥ (50 points) and seat 1 the four queens and the
10♦ (50 points). -/
def tieTail : List Card :=
  [⟨.diamonds, .N10⟩, ⟨.hearts, .N10⟩, ⟨.spades, .Q⟩, ⟨.spades, .K⟩,
   ⟨.clubs, .Q⟩, ⟨.clubs, .K⟩, ⟨.diamonds, .Q⟩, ⟨.diamonds, .K⟩,
   ⟨.hearts, .Q⟩, ⟨.hearts, .K⟩]

/-- A full 52-card deck (a permutation of the standard deck) rigged so the
first deal gives both seats an initial tonk. -/
def tieDeck : List Card :=
  (fullDeckList.filter fun c => !(tieTail.contains c)) ++ tieTail

/-- A pre-deal state for claim C10: two seated players with zero chips and
the rigged deck. -/
def gC10 : GameState :=
  { deck := ⟨tieDeck, []⟩, players := [brokePlayer, brokePlayer],
    currentPlayerIndex := 0, phase := .PRE_GAME, spreadsOnTable := [],
    winner := none, winCondition := none, matchScores := [0, 0], pot := 0,
    highestBet := 0, roundNumber := 1, hasDrawnThisTurn := false }

/-- Claim C10 (counterexample to the claim as stated): the rigged deck is a
genuine 52-card deck, the first deal is voided as a tied initial tonk, yet
with zero-chip players no chips are reduced by an ante and the total of
chips plus pot does not strictly decrease across the voided deal — it stays
exactly 0. -/
theorem claim_C10_counterexample :
    tieDeck.length = 52 ∧
    (∀ c ∈ fullDeckList, tieDeck.count c = 1) ∧
    1 < (Game.checkInitialTonk (Game.dealAttempt gC10)).length ∧
    ((Game.collectAntes gC10).players.map Player.chips) = [0, 0] ∧
    ((Game.dealAndCheckInitialTonk 2 [fullDeckList] gC10).map
      (fun r => sumChips r.players + r.pot)) = some 0 ∧
    sumChips gC10.players + gC10.pot = 0 := by
  decide

/-- A knock scenario: seat 0 knocks holding 5 points while seat 1 holds 3. -/
def gKnock : GameState :=
  { deck := ⟨[], [⟨.clubs, .N2⟩]⟩,
    players := [{ pHero with hand := [⟨.hearts, .N5⟩] },
                { pOther with hand := [⟨.hearts, .N3⟩] }],
    currentPlayerIndex := 0, phase := .START_OF_TURN, spreadsOnTable := [],
    winner := none, winCondition := none, matchScores := [0, 0], pot := 20,
    highestBet := 10, roundNumber := 1, hasDrawnThisTurn := false }

/-- Concrete witness for claim C3: the 5-point knocker against a 3-point
opponent is caught, the opponent winning. -/
theorem claim_C3_witness :
    ((Game.knock gKnock).toOption.map fun g => (g.winner, g.winCondition, g.phase)) =
      some (some 1, some WinCondition.CAUGHT, Phase.GAME_OVER) := by
  obtain ⟨g', hok, hph, -, hB⟩ := claim_C3_knock gKnock rfl (by decide) (by decide)
  obtain ⟨hcond, j, hw, hjne, hjlt, -, -⟩ := hB ⟨1, by decide, by decide, by decide⟩
  have hcur : gKnock.currentPlayerIndex = 0 := rfl
  have hlen : gKnock.players.length = 2 := rfl
  rw [hcur] at hjne
  rw [hlen] at hjlt
  have hj : j = 1 := by omega
  subst hj
  rw [hok]
  simp only [Except.toOption, Option.map_some']
  rw [hw, hcond, hph]

/-- A draw-phase state with an exhausted draw pile: seat 0 holds 5 points,
seat 1 holds 3. -/
def gStock : GameState :=
  { deck := ⟨[], [⟨.clubs, .N2⟩]⟩,
    players := [{ pHero with hand := [⟨.hearts, .N5⟩] },
                { pOther with hand := [⟨.hearts, .N3⟩] }],
    currentPlayerIndex := 0, phase := .DRAW, spreadsOnTable := [],
    winner := none, winCondition := none, matchScores := [0, 0], pot := 20,
    highestBet := 10, roundNumber := 1, hasDrawnThisTurn := false }

/-- Concrete witness for claim C5: drawing from the empty deck ends the
round as `STOCK_EMPTY` with the 3-point seat winning, deck and players
untouched. -/
theorem claim_C5_witness :
    ((Game.drawFromDeck gStock).toOption.map
      fun gc => (gc.1.winner, gc.1.winCondition, gc.1.phase, gc.2, gc.1.deck, gc.1.players)) =
      some (some 1, some WinCondition.STOCK_EMPTY, Phase.GAME_OVER, none,
            gStock.deck, gStock.players) := by
  obtain ⟨g', hok, hph, hcond, hdeck, hplayers, j, hw, hjlt, hmin, -⟩ :=
    claim_C5_stockEmpty gStock rfl rfl (by decide)
  have hlen : gStock.players.length = 2 := rfl
  rw [hlen] at hjlt
  have hj : j = 1 := by
    rcases (by omega : j = 0 ∨ j = 1) with rfl | rfl
    · have h10 := hmin 1 (by rw [hlen]; omega)
      revert h10
      decide
    · rfl
  subst hj
  rw [hok]
  simp only [Except.toOption, Option.map_some']
  rw [hw, hcond, hph, hdeck, hplayers]

/-- A fresh two-player pre-deal state holding the identity-shuffled deck. -/
def gC4 : GameState :=
  { deck := ⟨fullDeckList, []⟩,
    players := [Game.freshPlayer true, Game.freshPlayer false],
    currentPlayerIndex := 0, phase := .PRE_GAME, spreadsOnTable := [],
    winner := none, winCondition := none, matchScores := [0, 0], pot := 0,
    highestBet := 0, roundNumber := 1, hasDrawnThisTurn := false }

/-- Concrete witness for claim C4: on the identity shuffle no seat reaches
49 or 50 points, so the deal proceeds to `START_OF_TURN` with seat 0 to
act. -/
theorem claim_C4_witness :
    Game.dealAndCheckInitialTonk 1 [] gC4 =
      some { Game.dealAttempt gC4 with phase := Phase.START_OF_TURN } ∧
    (Game.dealAttempt gC4).currentPlayerIndex = 0 := by
  obtain ⟨-, -, hzero, -, -⟩ := claim_C4_initialTonk 0 [] gC4 rfl
  exact hzero (by decide)

/-- A finished round for claim C8: seat 0 has won, seat 1 still holds the
K♣ (10 points); cumulative scores start at 7 and 9. -/
def gC8 : GameState :=
  { deck := ⟨[], [⟨.clubs, .N2⟩]⟩, players := [pHero, pOther],
    currentPlayerIndex := 0, phase := .GAME_OVER, spreadsOnTable := [],
    winner := some 0, winCondition := some .TONK, matchScores := [7, 9], pot := 20,
    highestBet := 10, roundNumber := 1, hasDrawnThisTurn := false }

/-- Concrete witness for claim C8: the loser's cumulative score grows by
exactly its 10-point hand. -/
theorem claim_C8_witness :
    (Game.applyRoundScoring gC8).matchScores.getD 1 0 =
      gC8.matchScores.getD 1 0 + ptsAt gC8 1 :=
  (claim_C8_applyRoundScoring gC8 0 rfl (by decide)).2.1 1 (by decide) (by decide)

/-- Concrete witness for claim C9: a lone 2♥ (2 points) knocks. -/
theorem claim_C9_witness :
    shouldKnock [⟨.hearts, .N2⟩] = true :=
  (claim_C9_shouldKnock [⟨.hearts, .N2⟩]).1 (by decide)

/-- A pre-deal state with a positive pending pot, for the C10 witness. -/
def gC10pos : GameState :=
  { deck := ⟨[], []⟩, players := [pHero, pOther],
    currentPlayerIndex := 0, phase := .PRE_GAME, spreadsOnTable := [],
    winner := none, winCondition := none, matchScores := [0, 0], pot := 5,
    highestBet := 0, roundNumber := 1, hasDrawnThisTurn := false }

/-- Concrete witness for claim C10 (amended): with a positive pending pot a
fresh attempt strictly decreases the chips-plus-pot total. -/
theorem claim_C10_witness :
    sumChips (Game.dealAttempt gC10pos).players + (Game.dealAttempt gC10pos).pot <
      sumChips gC10pos.players + gC10pos.pot :=
  (claim_C10_antes gC10pos).2.2.2.1 (by decide)

end Tonk
